import Mathlib

/-!
Verification of the Past Forward generation scheduler and page compositor.

Shallow embedding of the two core components of the repository:

* the bounded-concurrency generation round of `handleGenerateClick` and the
  single-item retry `handleRegenerateDecade` (src/App.tsx), modelled as a
  small-step interleaving semantics over an explicit round state with the two
  workers the code allocates (`concurrencyLimit = 2`);
* the album-page compositor `createAlbumPage` together with its helper
  `loadImage` (src/lib/albumUtils.ts), modelled as an executable function that
  produces the ordered trace of canvas operations and the encoded output
  descriptor; asynchronous resource completion (image loads) appears in the
  trace as an explicit barrier event.

Machine reals of the source (canvas coordinates) are modelled as rationals;
the browser random source `Math.random()` is a parameter `rand : ℕ → ℚ`
indexed by the cell, and image decoding is an oracle `loadOk : String → Bool`.
Pure context-state mutations of the canvas (`fillStyle`, `textAlign`,
`shadow*`, `font`) paint nothing and are not trace events; every operation
that paints, loads a resource or awaits one is.
-/

namespace PastForward

/-! ## Data model (src/App.tsx lines 13-20) -/

/-- `type ImageStatus = 'pending' | 'done' | 'error'` -/
inductive ImageStatus : Type
  | pending
  | done
  | error
deriving DecidableEq, Repr

/-- `interface GeneratedImage { status; url?; error? }` -/
structure GeneratedImage : Type where
  status : ImageStatus
  url : Option String
  errMsg : Option String
deriving DecidableEq, Repr

/-- The `generatedImages` react state: a map from decade label to its
generation state; absent keys are `none`. -/
def ResultMap : Type := String → Option GeneratedImage

/-- The record-spread update `{ ...prev, [decade]: v }` used by every state
publication in `processDecade` and `handleRegenerateDecade`. -/
def updateRecord (prev : ResultMap) (decade : String) (v : GeneratedImage) : ResultMap :=
  fun k => if k = decade then some v else prev k

/-- `const DECADES = [...]` (src/App.tsx line 13). -/
def DECADES : List String := ["1950s", "1960s", "1970s", "1980s", "1990s", "2000s"]

/-! ## Generation round (src/App.tsx lines 96-139)

A worker created by `handleGenerateClick` is a loop
`while (queue.length > 0) { shift; await processDecade(decade) }`.
Between two suspension points it is in one of three phases: about to test the
queue (`checking`), awaiting `generateDecadeImage` for one dequeued label
(`inflight`), or returned (`finished`). The dequeue (`shift`) and the issuing
of the generation call happen with no suspension point in between, so they
form one atomic step. -/

inductive WorkerPhase : Type
  | checking
  | inflight (decade : String)
  | finished
deriving DecidableEq, Repr

/-- State of one generation round: the shared FIFO `decadesQueue`, the two
workers of `Array(concurrencyLimit).fill(null).map(...)` with
`concurrencyLimit = 2`, the published result map, and two histories kept for
specification purposes: the labels for which a `generateDecadeImage` call has
been issued (in issue order) and those whose call has resolved. -/
structure RoundState : Type where
  queue : List String
  w1 : WorkerPhase
  w2 : WorkerPhase
  results : ResultMap
  callLog : List String
  resolvedLog : List String

/-- The worker selected by a side (`true` = first worker). -/
def RoundState.worker (s : RoundState) : Bool → WorkerPhase
  | true => s.w1
  | false => s.w2

/-- Replace the worker on one side. -/
def RoundState.setWorker (s : RoundState) : Bool → WorkerPhase → RoundState
  | true, w => { s with w1 := w }
  | false, w => { s with w2 := w }

/-- The labels a worker phase holds in flight: one for `inflight`, none
otherwise — a worker never holds more than one awaited call. -/
def phaseInflight : WorkerPhase → List String
  | WorkerPhase.inflight d => [d]
  | _ => []

/-- All labels currently held in flight by the two workers. -/
def RoundState.inflightList (s : RoundState) : List String :=
  phaseInflight s.w1 ++ phaseInflight s.w2

/-- `initialImages`: every requested label set to `{ status: 'pending' }`
before any work starts (src/App.tsx lines 101-105). -/
def initResults (labels : List String) : ResultMap :=
  labels.foldl (fun m d => updateRecord m d ⟨ImageStatus.pending, none, none⟩)
    (fun _ => none)

/-- The round state right after `handleGenerateClick` published the pending
map, copied the queue (`[...DECADES]`) and started the two workers. -/
def initState (labels : List String) : RoundState :=
  { queue := labels
    w1 := WorkerPhase.checking
    w2 := WorkerPhase.checking
    results := initResults labels
    callLog := []
    resolvedLog := [] }

/-- The state `processDecade` publishes for a label once its generation call
resolves: `{ status: 'done', url }` on success, `{ status: 'error', error }`
on rejection (src/App.tsx lines 110-126). -/
def outcomeImg (gen : String → Except String String) (d : String) : GeneratedImage :=
  match gen d with
  | Except.ok u => ⟨ImageStatus.done, some u, none⟩
  | Except.error m => ⟨ImageStatus.error, none, some m⟩

/-- One interleaving step of the round. `gen` is the outcome of
`generateDecadeImage` per label (`Except.error` models a rejected promise).

* `exit`: a worker finds the queue empty and returns.
* `dequeue`: a worker shifts the queue head and issues its generation call
  (no suspension point separates the two in the source).
* `resolveOk` / `resolveErr`: the awaited call resolves; `processDecade`
  catches any rejection and publishes `done`/`error` for exactly that label
  via the spread update, and the worker loops back to the queue test. -/
inductive Step (gen : String → Except String String) : RoundState → RoundState → Prop
  | exit (s : RoundState) (b : Bool) :
      s.worker b = WorkerPhase.checking → s.queue = [] →
      Step gen s (s.setWorker b WorkerPhase.finished)
  | dequeue (s : RoundState) (b : Bool) (d : String) (rest : List String) :
      s.worker b = WorkerPhase.checking → s.queue = d :: rest →
      Step gen s
        { s.setWorker b (WorkerPhase.inflight d) with
            queue := rest
            callLog := s.callLog ++ [d] }
  | resolveOk (s : RoundState) (b : Bool) (d u : String) :
      s.worker b = WorkerPhase.inflight d → gen d = Except.ok u →
      Step gen s
        { s.setWorker b WorkerPhase.checking with
            results := updateRecord s.results d ⟨ImageStatus.done, some u, none⟩
            resolvedLog := s.resolvedLog ++ [d] }
  | resolveErr (s : RoundState) (b : Bool) (d m : String) :
      s.worker b = WorkerPhase.inflight d → gen d = Except.error m →
      Step gen s
        { s.setWorker b WorkerPhase.checking with
            results := updateRecord s.results d ⟨ImageStatus.error, none, some m⟩
            resolvedLog := s.resolvedLog ++ [d] }

/-- Executions of the round: reflexive-transitive closure of `Step`. -/
def StepStar (gen : String → Except String String) : RoundState → RoundState → Prop :=
  Relation.ReflTransGen (Step gen)

/-- `await Promise.all(workers)` has resolved: both workers returned. -/
def Terminal (s : RoundState) : Prop :=
  s.w1 = WorkerPhase.finished ∧ s.w2 = WorkerPhase.finished

/-- Whether `generatedImages[decade]?.status === 'pending'`: the optional
chaining yields `false` on an absent entry. -/
def statusIsPending : Option GeneratedImage → Bool
  | some img => img.status = ImageStatus.pending
  | none => false

/-- `handleRegenerateDecade` (src/App.tsx lines 141-155): guard, reset the
label to pending, await one generation call, publish its outcome. Returns the
final result map together with the list of generation calls issued. -/
def handleRegenerateDecade (uploadedImage : Option String) (generatedImages : ResultMap)
    (gen : String → Except String String) (decade : String) : ResultMap × List String :=
  if uploadedImage.isNone || statusIsPending (generatedImages decade) then
    (generatedImages, [])
  else
    let afterPending := updateRecord generatedImages decade ⟨ImageStatus.pending, none, none⟩
    match gen decade with
    | Except.ok u =>
        (updateRecord afterPending decade ⟨ImageStatus.done, some u, none⟩, [decade])
    | Except.error m =>
        (updateRecord afterPending decade ⟨ImageStatus.error, none, some m⟩, [decade])

/-! ## Page compositor (src/lib/albumUtils.ts)

The canvas is modelled by the ordered trace of its operations. An event is
recorded for every call that paints onto the surface (`fillRect`, `fillText`,
`drawImage`), every coordinate-frame manipulation (`save`, `translate`,
`rotate`, `restore`) and every awaited resource (font loads, and the
`Promise.all` barrier over the image loads). -/

inductive CanvasEvent : Type
  | fillRect (x y w h : ℚ) (color : String)
  | fillTextEv (text : String) (x y : ℚ)
  | fontLoad (font : String)
  | saveCtx
  | restoreCtx
  | translateEv (x y : ℚ)
  | rotateEv (angle : ℚ)
  | drawImageEv (src : String) (x y w h : ℚ)
  | allImagesLoaded
deriving DecidableEq, Repr

/-- The encoded raster the call returns: `canvas.toDataURL('image/jpeg', 0.92)`
on a surface of the fixed canvas dimensions. -/
structure EncodedImage : Type where
  width : ℚ
  height : ℚ
  format : String
  quality : ℚ
deriving DecidableEq, Repr

def canvasWidth : ℚ := 2480
def canvasHeight : ℚ := 3508

/-- `const grid = { cols: 2, rows: 3, padding: 100 }` — the column and row
counts as naturals (they index cells) and as rationals (they enter the
coordinate arithmetic). -/
def gridCols : ℕ := 2
def gridRows : ℕ := 3
def gridPadding : ℚ := 100
def contentTopMargin : ℚ := 400
def contentHeight : ℚ := canvasHeight - contentTopMargin
def cellWidth : ℚ := (canvasWidth - gridPadding * (gridCols + 1)) / gridCols
def cellHeight : ℚ := (contentHeight - gridPadding * (gridRows + 1)) / gridRows

/-- `loadImage` (src/lib/albumUtils.ts lines 6-14): resolves with the decoded
image (identified by its source) or rejects with the interpreted message
built from the first 50 characters of the source. `loadOk` is the oracle for
whether the browser can decode the source. -/
def loadImage (loadOk : String → Bool) (src : String) : Except String String :=
  if loadOk src then Except.ok src
  else Except.error ("Failed to load image: " ++ src.take 50 ++ "...")

/-- `const rotation = (Math.random() - 0.5) * 0.07` for one sample of the
random source. -/
def rotationOf (r : ℚ) : ℚ := (r - 1/2) * (7/100)

/-- The canvas operations of one `imagesWithDecades.forEach` iteration
(src/lib/albumUtils.ts lines 70-113) at position `index`. -/
def cellEvents (rand : ℕ → ℚ) (index : ℕ) (decade : String) (img : String) :
    List CanvasEvent :=
  let row : ℕ := index / gridCols
  let col : ℕ := index % gridCols
  let cellX : ℚ := gridPadding + col * (cellWidth + gridPadding)
  let cellY : ℚ := contentTopMargin + gridPadding + row * (cellHeight + gridPadding)
  let rotation : ℚ := rotationOf (rand index)
  let polaroidWidth : ℚ := cellWidth * (8/10)
  let polaroidHeight : ℚ := polaroidWidth * (12/10)
  let imageMargin : ℚ := polaroidWidth * (5/100)
  let imageWidth : ℚ := polaroidWidth - imageMargin * 2
  let imageHeight : ℚ := imageWidth
  let imageX : ℚ := -imageWidth / 2
  let imageY : ℚ := -polaroidHeight / 2 + imageMargin
  let captionY : ℚ :=
    imageY + imageHeight + (polaroidHeight / 2 - imageMargin - imageHeight) / 2 + 30
  [ CanvasEvent.saveCtx,
    CanvasEvent.translateEv (cellX + cellWidth / 2) (cellY + cellHeight / 2),
    CanvasEvent.rotateEv rotation,
    CanvasEvent.fillRect (-polaroidWidth / 2) (-polaroidHeight / 2)
      polaroidWidth polaroidHeight "#FFFFFF",
    CanvasEvent.drawImageEv img imageX imageY imageWidth imageHeight,
    CanvasEvent.fillTextEv decade 0 captionY,
    CanvasEvent.restoreCtx ]

/-- The whole `forEach((item, index) => ...)` loop: `start` is the index of
the first remaining item. -/
def cellTraces (rand : ℕ → ℚ) (start : ℕ) : List (String × String) → List CanvasEvent
  | [] => []
  | (decade, img) :: rest =>
      cellEvents rand start decade img ++ cellTraces rand (start + 1) rest

/-- The operations of steps 1-2 of `createAlbumPage` (background fill, font
loads, title), which the source performs before the image loads are awaited. -/
def pagePreamble : List CanvasEvent :=
  [ CanvasEvent.fillRect 0 0 canvasWidth canvasHeight "#F8FAFC",
    CanvasEvent.fontLoad "150px Poppins",
    CanvasEvent.fontLoad "80px Inter",
    CanvasEvent.fillTextEv "Past Forward" (canvasWidth / 2) 250 ]

/-- `await Promise.all(Object.values(imageData).map(url => loadImage(url)))`:
resolves with every decoded image, or rejects with a failing load's
interpreted error (determinized to the first failing source in list order). -/
def loadAll (loadOk : String → Bool) : List String → Except String (List String)
  | [] => Except.ok []
  | src :: rest =>
      match loadImage loadOk src, loadAll loadOk rest with
      | Except.error e, _ => Except.error e
      | Except.ok _, Except.error e => Except.error e
      | Except.ok img, Except.ok imgs => Except.ok (img :: imgs)

/-- `createAlbumPage` (src/lib/albumUtils.ts lines 21-116). `ctxAvailable`
models whether `canvas.getContext('2d')` yields a context; `imageData` is the
record in key-insertion order; `Object.keys`/`Object.values` iterate it in
that order. A failing image load rejects the whole call (the `Promise.all`
rejection propagates out of the async function); otherwise the call resolves
with the full event trace and the encoded JPEG descriptor. -/
def createAlbumPage (ctxAvailable : Bool) (loadOk : String → Bool) (rand : ℕ → ℚ)
    (imageData : List (String × String)) :
    Except String (List CanvasEvent × EncodedImage) :=
  if ctxAvailable then
    match loadAll loadOk (imageData.map Prod.snd) with
    | Except.error e => Except.error e
    | Except.ok loadedImages =>
        let decades := imageData.map Prod.fst
        let imagesWithDecades := decades.zip loadedImages
        Except.ok
          (pagePreamble ++ CanvasEvent.allImagesLoaded :: cellTraces rand 0 imagesWithDecades,
           ⟨canvasWidth, canvasHeight, "image/jpeg", 92/100⟩)
  else Except.error "Could not get 2D canvas context"

/-- The trace of a compositor call; a rejected call painted no complete page,
so it contributes the empty trace. -/
def pageTrace (x : Except String (List CanvasEvent × EncodedImage)) : List CanvasEvent :=
  match x with
  | Except.ok (t, _) => t
  | Except.error _ => []

/-- Events that paint a generated image cell. -/
def isDrawImage : CanvasEvent → Bool
  | CanvasEvent.drawImageEv _ _ _ _ _ => true
  | _ => false

/-- Events that paint onto the surface (fill or text or image). -/
def isPaint : CanvasEvent → Bool
  | CanvasEvent.fillRect _ _ _ _ _ => true
  | CanvasEvent.fillTextEv _ _ _ => true
  | CanvasEvent.drawImageEv _ _ _ _ _ => true
  | _ => false

/-- The synchronization barrier over the image loads. -/
def isLoadBarrier : CanvasEvent → Bool
  | CanvasEvent.allImagesLoaded => true
  | _ => false

/-- The part of a trace that happens before all image loads have completed. -/
def preBarrier (t : List CanvasEvent) : List CanvasEvent :=
  t.takeWhile (fun e => !(isLoadBarrier e))

/-- The target of a `translate` event. -/
def translateOf : CanvasEvent → Option (ℚ × ℚ)
  | CanvasEvent.translateEv x y => some (x, y)
  | _ => none

/-- The source painted by a `drawImage` event. -/
def drawImageOf : CanvasEvent → Option String
  | CanvasEvent.drawImageEv src _ _ _ _ => some src
  | _ => none

/-- The centre of the cell at grid column `col`, row `row`, where the source
computes `cellX + cellWidth / 2` and `cellY + cellHeight / 2`. -/
def cellCenter (col row : ℕ) : ℚ × ℚ :=
  (gridPadding + col * (cellWidth + gridPadding) + cellWidth / 2,
   contentTopMargin + gridPadding + row * (cellHeight + gridPadding) + cellHeight / 2)

/-- Decidable check that a rotate event's angle is within 0.035 radians in
absolute value (non-rotate events pass vacuously). -/
def rotationSmall : CanvasEvent → Bool
  | CanvasEvent.rotateEv a => |a| ≤ 7/200
  | _ => true

/-- The invariant of a generation round, preserved by every step. -/
structure Inv (labels : List String) (gen : String → Except String String)
    (s : RoundState) : Prop where
  queueCalls : s.callLog ++ s.queue = labels
  inflightPerm : (s.resolvedLog ++ s.inflightList).Perm s.callLog
  resolvedResults : ∀ d ∈ s.resolvedLog, s.results d = some (outcomeImg gen d)
  pendingResults : ∀ d ∈ labels, d ∉ s.resolvedLog →
    s.results d = some ⟨ImageStatus.pending, none, none⟩
  finishedQueue : s.w1 = WorkerPhase.finished → s.w2 = WorkerPhase.finished →
    s.queue = []

/-- Weight of a worker phase for the termination measure: a `checking` worker
still takes one step to exit, an `inflight` worker two. -/
def phaseWeight : WorkerPhase → ℕ
  | WorkerPhase.checking => 1
  | WorkerPhase.inflight _ => 2
  | WorkerPhase.finished => 0

/-- Termination measure of a round: strictly decreased by every step. -/
def roundMeasure (s : RoundState) : ℕ :=
  3 * s.queue.length + phaseWeight s.w1 + phaseWeight s.w2

/-! ## A concrete execution used to instantiate the round theorems -/

/-- A generation outcome that rejects every label. -/
def demoGen : String → Except String String := fun _ => Except.error "boom"

/-- The terminal state of a singleton round under `demoGen`. -/
def demoFinal : RoundState :=
  { queue := []
    w1 := WorkerPhase.finished
    w2 := WorkerPhase.finished
    results := updateRecord (initResults ["1950s"]) "1950s"
      ⟨ImageStatus.error, none, some "boom"⟩
    callLog := ["1950s"]
    resolvedLog := ["1950s"] }

/-- A 60-character source reference, long enough to exhibit the truncation to
50 characters in the load-failure message. -/
def demoLongSrc : String := String.mk (List.replicate 60 'a')

/-! ## Scheduler lemmas -/

lemma foldl_updateRecord_not_mem (v : GeneratedImage) (labels : List String)
    (m : ResultMap) (d : String) (h : d ∉ labels) :
    (labels.foldl (fun m x => updateRecord m x v) m) d = m d := by
  induction labels generalizing m with
  | nil => rfl
  | cons a rest ih =>
      simp only [List.mem_cons, not_or] at h
      rw [List.foldl_cons, ih _ h.2]
      simp [updateRecord, h.1]

lemma foldl_updateRecord_mem (v : GeneratedImage) (labels : List String)
    (m : ResultMap) (d : String) (h : d ∈ labels) :
    (labels.foldl (fun m x => updateRecord m x v) m) d = some v := by
  induction labels generalizing m with
  | nil => cases h
  | cons a rest ih =>
      rw [List.foldl_cons]
      by_cases hd : d ∈ rest
      · exact ih _ hd
      · have had : d = a := by
          rcases List.mem_cons.mp h with h1 | h1
          · exact h1
          · exact absurd h1 hd
        rw [foldl_updateRecord_not_mem _ _ _ _ hd]
        simp [updateRecord, had]

lemma initResults_mem (labels : List String) (d : String) (h : d ∈ labels) :
    initResults labels d = some ⟨ImageStatus.pending, none, none⟩ :=
  foldl_updateRecord_mem _ _ _ _ h

lemma inv_init (labels : List String) (gen : String → Except String String) :
    Inv labels gen (initState labels) where
  queueCalls := rfl
  inflightPerm := by simp [initState, RoundState.inflightList, phaseInflight]
  resolvedResults := by intro d hd; cases hd
  pendingResults := fun d hd _ => initResults_mem labels d hd
  finishedQueue := by intro h; cases h

lemma perm_dequeue {R C I : List String} (d : String) (h : (R ++ I).Perm C) :
    (R ++ (d :: I)).Perm (C ++ [d]) :=
  (List.perm_middle).trans ((h.cons d).trans (List.perm_append_singleton d C).symm)

lemma perm_enqueue_right {R C I : List String} (d : String) (h : (R ++ I).Perm C) :
    (R ++ (I ++ [d])).Perm (C ++ [d]) := by
  rw [← List.append_assoc]
  exact h.append_right [d]

lemma perm_resolve_left {R C I : List String} (d : String) (h : (R ++ (d :: I)).Perm C) :
    ((R ++ [d]) ++ I).Perm C := by
  rw [List.append_assoc]
  exact h

lemma perm_resolve_right {R C I : List String} (d : String) (h : (R ++ (I ++ [d])).Perm C) :
    ((R ++ [d]) ++ I).Perm C := by
  refine List.Perm.trans ?_ h
  rw [List.append_assoc]
  exact List.Perm.append_left R List.perm_append_comm

lemma inv_step {labels : List String} {gen : String → Except String String}
    {s s' : RoundState} (hinv : Inv labels gen s) (hstep : Step gen s s') :
    Inv labels gen s' := by
  obtain ⟨hq, hperm, hres, hpend, hfin⟩ := hinv
  cases hstep with
  | exit b hw hq0 =>
      cases b <;> simp only [RoundState.worker] at hw <;>
        exact
          { queueCalls := hq
            inflightPerm := by
              simp only [RoundState.setWorker, RoundState.inflightList, phaseInflight]
              simpa [RoundState.inflightList, hw, phaseInflight] using hperm
            resolvedResults := hres
            pendingResults := hpend
            finishedQueue := fun _ _ => hq0 }
  | dequeue b d rest hw hq0 =>
      have hql : s.callLog ++ (d :: rest) = labels := hq0 ▸ hq
      cases b <;> simp only [RoundState.worker] at hw
      · exact
          { queueCalls := by
              simpa [List.append_assoc] using hql
            inflightPerm := by
              simp only [RoundState.setWorker, RoundState.inflightList, phaseInflight]
              refine perm_enqueue_right d ?_
              simpa [RoundState.inflightList, hw, phaseInflight] using hperm
            resolvedResults := hres
            pendingResults := hpend
            finishedQueue := by
              intro _ h2
              simp [RoundState.setWorker] at h2 }
      · exact
          { queueCalls := by
              simpa [List.append_assoc] using hql
            inflightPerm := by
              simp only [RoundState.setWorker, RoundState.inflightList, phaseInflight]
              refine perm_dequeue d ?_
              simpa [RoundState.inflightList, hw, phaseInflight] using hperm
            resolvedResults := hres
            pendingResults := hpend
            finishedQueue := by
              intro h1 _
              simp [RoundState.setWorker] at h1 }
  | resolveOk b d u hw hg =>
      have hout : outcomeImg gen d = ⟨ImageStatus.done, some u, none⟩ := by
        simp [outcomeImg, hg]
      have hres' : ∀ x ∈ s.resolvedLog ++ [d],
          updateRecord s.results d ⟨ImageStatus.done, some u, none⟩ x =
            some (outcomeImg gen x) := by
        intro x hx
        rcases List.mem_append.mp hx with hx | hx
        · by_cases hxd : x = d
          · subst hxd
            simp [updateRecord, hout]
          · simp only [updateRecord, if_neg hxd]
            exact hres x hx
        · rw [List.mem_singleton.mp hx]
          simp [updateRecord, hout]
      have hpend' : ∀ x ∈ labels, x ∉ s.resolvedLog ++ [d] →
          updateRecord s.results d ⟨ImageStatus.done, some u, none⟩ x =
            some ⟨ImageStatus.pending, none, none⟩ := by
        intro x hxl hx
        simp only [List.mem_append, List.mem_singleton, not_or] at hx
        simp only [updateRecord, if_neg hx.2]
        exact hpend x hxl hx.1
      cases b <;> simp only [RoundState.worker] at hw
      · exact
          { queueCalls := hq
            inflightPerm := by
              simp only [RoundState.setWorker, RoundState.inflightList, phaseInflight]
              refine perm_resolve_right d ?_
              simpa [RoundState.inflightList, hw, phaseInflight] using hperm
            resolvedResults := hres'
            pendingResults := hpend'
            finishedQueue := by
              intro _ h2
              simp [RoundState.setWorker] at h2 }
      · exact
          { queueCalls := hq
            inflightPerm := by
              simp only [RoundState.setWorker, RoundState.inflightList, phaseInflight]
              refine perm_resolve_left d ?_
              simpa [RoundState.inflightList, hw, phaseInflight] using hperm
            resolvedResults := hres'
            pendingResults := hpend'
            finishedQueue := by
              intro h1 _
              simp [RoundState.setWorker] at h1 }
  | resolveErr b d m hw hg =>
      have hout : outcomeImg gen d = ⟨ImageStatus.error, none, some m⟩ := by
        simp [outcomeImg, hg]
      have hres' : ∀ x ∈ s.resolvedLog ++ [d],
          updateRecord s.results d ⟨ImageStatus.error, none, some m⟩ x =
            some (outcomeImg gen x) := by
        intro x hx
        rcases List.mem_append.mp hx with hx | hx
        · by_cases hxd : x = d
          · subst hxd
            simp [updateRecord, hout]
          · simp only [updateRecord, if_neg hxd]
            exact hres x hx
        · rw [List.mem_singleton.mp hx]
          simp [updateRecord, hout]
      have hpend' : ∀ x ∈ labels, x ∉ s.resolvedLog ++ [d] →
          updateRecord s.results d ⟨ImageStatus.error, none, some m⟩ x =
            some ⟨ImageStatus.pending, none, none⟩ := by
        intro x hxl hx
        simp only [List.mem_append, List.mem_singleton, not_or] at hx
        simp only [updateRecord, if_neg hx.2]
        exact hpend x hxl hx.1
      cases b <;> simp only [RoundState.worker] at hw
      · exact
          { queueCalls := hq
            inflightPerm := by
              simp only [RoundState.setWorker, RoundState.inflightList, phaseInflight]
              refine perm_resolve_right d ?_
              simpa [RoundState.inflightList, hw, phaseInflight] using hperm
            resolvedResults := hres'
            pendingResults := hpend'
            finishedQueue := by
              intro _ h2
              simp [RoundState.setWorker] at h2 }
      · exact
          { queueCalls := hq
            inflightPerm := by
              simp only [RoundState.setWorker, RoundState.inflightList, phaseInflight]
              refine perm_resolve_left d ?_
              simpa [RoundState.inflightList, hw, phaseInflight] using hperm
            resolvedResults := hres'
            pendingResults := hpend'
            finishedQueue := by
              intro h1 _
              simp [RoundState.setWorker] at h1 }

lemma inv_reachable {labels : List String} {gen : String → Except String String}
    {s : RoundState} (hs : StepStar gen (initState labels) s) : Inv labels gen s := by
  induction hs with
  | refl => exact inv_init labels gen
  | tail _ hstep ih => exact inv_step ih hstep

lemma step_measure {gen : String → Except String String} {s s' : RoundState}
    (hstep : Step gen s s') : roundMeasure s' < roundMeasure s := by
  cases hstep with
  | exit b hw hq0 =>
      cases b <;> simp only [RoundState.worker] at hw <;>
        simp [roundMeasure, RoundState.setWorker, phaseWeight, hw]
  | dequeue b d rest hw hq0 =>
      cases b <;> simp only [RoundState.worker] at hw <;>
        simp [roundMeasure, RoundState.setWorker, phaseWeight, hw, hq0] <;> omega
  | resolveOk b d u hw hg =>
      cases b <;> simp only [RoundState.worker] at hw <;>
        simp [roundMeasure, RoundState.setWorker, phaseWeight, hw]
  | resolveErr b d m hw hg =>
      cases b <;> simp only [RoundState.worker] at hw <;>
        simp [roundMeasure, RoundState.setWorker, phaseWeight, hw]

/-- A worker that has not returned can always take a step: the queue test, the
dequeue, or the resolution of its awaited call (which `processDecade` never
lets throw). -/
lemma progress (gen : String → Except String String) (s : RoundState)
    (h : ¬ Terminal s) : ∃ s', Step gen s s' := by
  by_cases h1 : s.w1 = WorkerPhase.finished
  · have h2 : s.w2 ≠ WorkerPhase.finished := fun hh => h ⟨h1, hh⟩
    cases hw : s.w2 with
    | checking =>
        cases hqc : s.queue with
        | nil => exact ⟨_, Step.exit s false hw hqc⟩
        | cons d rest => exact ⟨_, Step.dequeue s false d rest hw hqc⟩
    | inflight d =>
        cases hg : gen d with
        | ok u => exact ⟨_, Step.resolveOk s false d u hw hg⟩
        | error m => exact ⟨_, Step.resolveErr s false d m hw hg⟩
    | finished => exact absurd hw h2
  · cases hw : s.w1 with
    | checking =>
        cases hqc : s.queue with
        | nil => exact ⟨_, Step.exit s true hw hqc⟩
        | cons d rest => exact ⟨_, Step.dequeue s true d rest hw hqc⟩
    | inflight d =>
        cases hg : gen d with
        | ok u => exact ⟨_, Step.resolveOk s true d u hw hg⟩
        | error m => exact ⟨_, Step.resolveErr s true d m hw hg⟩
    | finished => exact absurd hw h1

lemma reaches_terminal_aux (gen : String → Except String String) :
    ∀ n (s : RoundState), roundMeasure s ≤ n → ∃ t, StepStar gen s t ∧ Terminal t := by
  intro n
  induction n with
  | zero =>
      intro s hs
      by_cases h : Terminal s
      · exact ⟨s, Relation.ReflTransGen.refl, h⟩
      · obtain ⟨s', hstep⟩ := progress gen s h
        have := step_measure hstep
        omega
  | succ n ih =>
      intro s hs
      by_cases h : Terminal s
      · exact ⟨s, Relation.ReflTransGen.refl, h⟩
      · obtain ⟨s', hstep⟩ := progress gen s h
        have hlt := step_measure hstep
        obtain ⟨t, h1, h2⟩ := ih s' (by omega)
        exact ⟨t, Relation.ReflTransGen.head hstep h1, h2⟩

/-- Every execution of a round can be extended until both workers have
returned: `await Promise.all(workers)` resolves. -/
lemma reaches_terminal (gen : String → Except String String) (s : RoundState) :
    ∃ t, StepStar gen s t ∧ Terminal t :=
  reaches_terminal_aux gen (roundMeasure s) s le_rfl

lemma terminal_inflight {s : RoundState} (ht : Terminal s) : s.inflightList = [] := by
  rw [RoundState.inflightList, ht.1, ht.2]
  rfl

lemma terminal_callLog {labels : List String} {gen : String → Except String String}
    {s : RoundState} (hinv : Inv labels gen s) (ht : Terminal s) : s.callLog = labels := by
  have hq0 : s.queue = [] := hinv.finishedQueue ht.1 ht.2
  have := hinv.queueCalls
  rwa [hq0, List.append_nil] at this

lemma terminal_resolved {labels : List String} {gen : String → Except String String}
    {s : RoundState} (hinv : Inv labels gen s) (ht : Terminal s) {d : String}
    (hd : d ∈ labels) : s.results d = some (outcomeImg gen d) := by
  apply hinv.resolvedResults
  have hperm := hinv.inflightPerm
  rw [terminal_inflight ht, List.append_nil] at hperm
  rw [hperm.mem_iff, terminal_callLog hinv ht]
  exact hd

lemma demo_exec : StepStar demoGen (initState ["1950s"]) demoFinal := by
  refine Relation.ReflTransGen.head (Step.dequeue _ true "1950s" [] rfl rfl) ?_
  refine Relation.ReflTransGen.head (Step.resolveErr _ true "1950s" "boom" rfl rfl) ?_
  refine Relation.ReflTransGen.head (Step.exit _ true rfl rfl) ?_
  refine Relation.ReflTransGen.head (Step.exit _ false rfl rfl) ?_
  exact Relation.ReflTransGen.refl

lemma demo_terminal : Terminal demoFinal := ⟨rfl, rfl⟩

/-! ## Compositor lemmas -/

lemma loadAll_ok (loadOk : String → Bool) (srcs : List String)
    (h : ∀ src ∈ srcs, loadOk src = true) :
    loadAll loadOk srcs = Except.ok srcs := by
  induction srcs with
  | nil => rfl
  | cons a rest ih =>
      have ha : loadOk a = true := h a (List.mem_cons_self a rest)
      have hrest := ih (fun src hs => h src (List.mem_cons_of_mem a hs))
      simp [loadAll, loadImage, ha, hrest]

lemma loadAll_error (loadOk : String → Bool) (srcs : List String)
    (h : ∃ src ∈ srcs, loadOk src = false) :
    ∃ u ∈ srcs, loadOk u = false ∧
      loadAll loadOk srcs = Except.error ("Failed to load image: " ++ u.take 50 ++ "...") := by
  induction srcs with
  | nil => obtain ⟨src, hmem, _⟩ := h; cases hmem
  | cons a rest ih =>
      by_cases ha : loadOk a = true
      · have hrest : ∃ src ∈ rest, loadOk src = false := by
          obtain ⟨src, hmem, hsrc⟩ := h
          rcases List.mem_cons.mp hmem with heq | hmem'
          · rw [heq] at hsrc
            rw [ha] at hsrc
            cases hsrc
          · exact ⟨src, hmem', hsrc⟩
        obtain ⟨u, hu, hu2, hu3⟩ := ih hrest
        exact ⟨u, List.mem_cons_of_mem a hu, hu2,
          by simp [loadAll, loadImage, ha, hu3]⟩
      · have ha' : loadOk a = false := by
          cases hv : loadOk a
          · rfl
          · exact absurd hv ha
        exact ⟨a, List.mem_cons_self a rest, ha',
          by simp [loadAll, loadImage, ha']⟩

lemma zip_fst_snd (l : List (String × String)) :
    (l.map Prod.fst).zip (l.map Prod.snd) = l := by
  induction l with
  | nil => rfl
  | cons a rest ih => simp [ih]

lemma countP_cellTraces (rand : ℕ → ℚ) (n : ℕ) (l : List (String × String)) :
    (cellTraces rand n l).countP isDrawImage = l.length := by
  induction l generalizing n with
  | nil => rfl
  | cons a rest ih =>
      obtain ⟨d, img⟩ := a
      rw [cellTraces, List.countP_append, ih]
      simp [cellEvents, isDrawImage, List.countP_cons, Nat.add_comm]

lemma filterMap_drawImage_cellTraces (rand : ℕ → ℚ) (n : ℕ)
    (l : List (String × String)) :
    (cellTraces rand n l).filterMap drawImageOf = l.map Prod.snd := by
  induction l generalizing n with
  | nil => rfl
  | cons a rest ih =>
      obtain ⟨d, img⟩ := a
      rw [cellTraces, List.filterMap_append, ih]
      simp [cellEvents, drawImageOf]

lemma filterMap_translate_cellTraces (rand : ℕ → ℚ) (n : ℕ)
    (l : List (String × String)) :
    (cellTraces rand n l).filterMap translateOf =
      (List.range l.length).map
        (fun i => cellCenter ((n + i) % gridCols) ((n + i) / gridCols)) := by
  induction l generalizing n with
  | nil => rfl
  | cons a rest ih =>
      obtain ⟨d, img⟩ := a
      rw [cellTraces, List.filterMap_append, ih, List.length_cons,
        List.range_succ_eq_map, List.map_cons, List.map_map]
      have harith : ∀ i : ℕ, n + 1 + i = n + Nat.succ i := fun i => by omega
      simp only [Function.comp, harith, Nat.add_zero]
      simp [cellEvents, translateOf, cellCenter]

lemma all_rotationSmall_cellTraces (rand : ℕ → ℚ) (n : ℕ)
    (l : List (String × String)) (hrand : ∀ k, 0 ≤ rand k ∧ rand k < 1) :
    (cellTraces rand n l).all rotationSmall = true := by
  induction l generalizing n with
  | nil => rfl
  | cons a rest ih =>
      obtain ⟨d, img⟩ := a
      rw [cellTraces, List.all_append, ih, Bool.and_true]
      have hb : |rotationOf (rand n)| ≤ 7/200 := by
        have h0 := (hrand n).1
        have h1 := (hrand n).2
        rw [rotationOf, abs_mul]
        have habs : |rand n - 1/2| ≤ 1/2 := abs_le.mpr ⟨by linarith, by linarith⟩
        have h7 : |(7 : ℚ)/100| = 7/100 := by norm_num
        rw [h7]
        calc |rand n - 1/2| * (7/100) ≤ (1/2) * (7/100) := by
              apply mul_le_mul_of_nonneg_right habs
              norm_num
          _ = 7/200 := by norm_num
      simp [cellEvents, rotationSmall, hb]

lemma preBarrier_page (t : List CanvasEvent) :
    preBarrier (pagePreamble ++ CanvasEvent.allImagesLoaded :: t) = pagePreamble := by
  simp [preBarrier, pagePreamble, List.takeWhile, isLoadBarrier]

/-! ## Claims -/

/-- C1: for every ordered list of labels, once the round resolves (both
workers have returned), `generateDecadeImage` has been invoked exactly once
per label — the call log is exactly the label list — and every label's
published state is `done` or `error`. -/
theorem runRound_exactly_once (labels : List String)
    (gen : String → Except String String) (s : RoundState)
    (hs : StepStar gen (initState labels) s) (ht : Terminal s) :
    s.callLog = labels ∧
      ∀ d ∈ labels, ∃ img, s.results d = some img ∧
        (img.status = ImageStatus.done ∨ img.status = ImageStatus.error) := by
  have hinv := inv_reachable hs
  refine ⟨terminal_callLog hinv ht, ?_⟩
  intro d hd
  refine ⟨outcomeImg gen d, terminal_resolved hinv ht hd, ?_⟩
  cases hg : gen d <;> simp [outcomeImg, hg]

theorem runRound_exactly_once_witness :
    demoFinal.callLog = ["1950s"] ∧
      ∀ d ∈ ["1950s"], ∃ img, demoFinal.results d = some img ∧
        (img.status = ImageStatus.done ∨ img.status = ImageStatus.error) :=
  runRound_exactly_once ["1950s"] demoGen demoFinal demo_exec demo_terminal

/-- C2: at every reachable point of a round, the calls issued and not yet
resolved are exactly the labels the workers hold in flight — never more than
the two workers, each holding at most one. -/
theorem runRound_bounded_concurrency (labels : List String)
    (gen : String → Except String String) (s : RoundState)
    (hs : StepStar gen (initState labels) s) :
    s.callLog.length = s.resolvedLog.length + s.inflightList.length ∧
      s.callLog.length ≤ s.resolvedLog.length + 2 ∧
      (phaseInflight s.w1).length ≤ 1 ∧ (phaseInflight s.w2).length ≤ 1 := by
  have hinv := inv_reachable hs
  have hlen := hinv.inflightPerm.length_eq
  rw [List.length_append] at hlen
  have h1 : (phaseInflight s.w1).length ≤ 1 := by
    cases s.w1 <;> simp [phaseInflight]
  have h2 : (phaseInflight s.w2).length ≤ 1 := by
    cases s.w2 <;> simp [phaseInflight]
  have hin : s.inflightList.length ≤ 2 := by
    rw [RoundState.inflightList, List.length_append]
    omega
  exact ⟨hlen.symm, by omega, h1, h2⟩

theorem runRound_bounded_concurrency_witness :
    demoFinal.callLog.length = demoFinal.resolvedLog.length + demoFinal.inflightList.length ∧
      demoFinal.callLog.length ≤ demoFinal.resolvedLog.length + 2 ∧
      (phaseInflight demoFinal.w1).length ≤ 1 ∧ (phaseInflight demoFinal.w2).length ≤ 1 :=
  runRound_bounded_concurrency ["1950s"] demoGen demoFinal demo_exec

/-- C5: when every generation call rejects, the round still resolves (a
terminal state is reached — nothing throws out of the round), and in every
terminal state every label's published state is `error` carrying the
rejection's message. -/
theorem runRound_all_rejected (labels : List String) (msgF : String → String) :
    (∃ t, StepStar (fun d => Except.error (msgF d)) (initState labels) t ∧ Terminal t) ∧
      ∀ s, StepStar (fun d => Except.error (msgF d)) (initState labels) s → Terminal s →
        ∀ d ∈ labels, s.results d = some ⟨ImageStatus.error, none, some (msgF d)⟩ := by
  constructor
  · exact reaches_terminal _ _
  · intro s hs ht d hd
    have hinv := inv_reachable hs
    have hd' := terminal_resolved hinv ht hd
    simpa [outcomeImg] using hd'

/-- C6: regenerating a label whose current state is `pending` is a silent
no-op: the guard returns before any work, no generation call is issued and
the result map is unchanged. -/
theorem regenerate_pending_noop (uploadedImage : Option String) (m : ResultMap)
    (gen : String → Except String String) (decade : String)
    (hp : statusIsPending (m decade) = true) :
    handleRegenerateDecade uploadedImage m gen decade = (m, []) := by
  rw [handleRegenerateDecade, hp]
  simp

theorem regenerate_pending_noop_witness :
    handleRegenerateDecade (some "photo") (initResults DECADES)
      (fun _ => Except.ok "url") "1950s" = (initResults DECADES, []) :=
  regenerate_pending_noop (some "photo") (initResults DECADES)
    (fun _ => Except.ok "url") "1950s" (by decide)

/-- C10: every published state update — a step of the round, or the single
item retry — rewrites the result map through the spread update at exactly one
label, whose entry becomes the published value while every other label's
entry is left unchanged. -/
theorem published_updates_single_label :
    (∀ (gen : String → Except String String) (s s' : RoundState), Step gen s s' →
        s'.results = s.results ∨ ∃ d v, s'.results = updateRecord s.results d v) ∧
      (∀ (m : ResultMap) (d : String) (v : GeneratedImage),
        updateRecord m d v d = some v ∧ ∀ k, k ≠ d → updateRecord m d v k = m k) ∧
      ∀ (u : Option String) (m : ResultMap) (gen : String → Except String String)
        (d k : String), k ≠ d → (handleRegenerateDecade u m gen d).1 k = m k := by
  refine ⟨?_, ?_, ?_⟩
  · intro gen s s' hstep
    cases hstep with
    | exit b hw hq0 => exact Or.inl (by cases b <;> rfl)
    | dequeue b d rest hw hq0 => exact Or.inl (by cases b <;> rfl)
    | resolveOk b d u hw hg => exact Or.inr ⟨d, _, rfl⟩
    | resolveErr b d m hw hg => exact Or.inr ⟨d, _, rfl⟩
  · intro m d v
    refine ⟨by simp [updateRecord], fun k hk => ?_⟩
    simp [updateRecord, hk]
  · intro u m gen d k hk
    rw [handleRegenerateDecade]
    cases hguard : (u.isNone || statusIsPending (m d)) with
    | true => simp
    | false =>
        simp only [Bool.false_eq_true, if_false]
        cases gen d <;> simp [updateRecord, hk]

/-- C3: with every source decodable, `createAlbumPage` resolves with exactly
one encoded JPEG of the fixed 2480 by 3508 page at quality 0.92; the trace
paints exactly one image cell per entry, the i-th cell paints the i-th
entry's image and its frame is centred on the grid cell at column `i mod 2`,
row `i div 2`. -/
theorem createAlbumPage_grid (loadOk : String → Bool) (rand : ℕ → ℚ)
    (imageData : List (String × String)) (hne : imageData ≠ [])
    (hload : ∀ p ∈ imageData, loadOk p.2 = true) :
    ∃ trace,
      createAlbumPage true loadOk rand imageData =
        Except.ok (trace, ⟨2480, 3508, "image/jpeg", 92/100⟩) ∧
      trace.countP isDrawImage = imageData.length ∧
      trace.filterMap drawImageOf = imageData.map Prod.snd ∧
      trace.filterMap translateOf =
        (List.range imageData.length).map
          (fun i => cellCenter (i % gridCols) (i / gridCols)) := by
  have hloadall : loadAll loadOk (imageData.map Prod.snd) =
      Except.ok (imageData.map Prod.snd) := by
    apply loadAll_ok
    intro src hsrc
    obtain ⟨p, hp, hps⟩ := List.mem_map.mp hsrc
    rw [← hps]
    exact hload p hp
  refine ⟨pagePreamble ++ CanvasEvent.allImagesLoaded :: cellTraces rand 0 imageData,
    ?_, ?_, ?_, ?_⟩
  · simp [createAlbumPage, hloadall, zip_fst_snd, canvasWidth, canvasHeight]
  · rw [List.countP_append, List.countP_cons, countP_cellTraces]
    simp [pagePreamble, isDrawImage, List.countP_cons]
  · rw [List.filterMap_append, List.filterMap_cons, filterMap_drawImage_cellTraces]
    simp [pagePreamble, drawImageOf]
  · rw [List.filterMap_append, List.filterMap_cons, filterMap_translate_cellTraces]
    simp [pagePreamble, translateOf]

theorem createAlbumPage_grid_witness :
    ∃ trace,
      createAlbumPage true (fun _ => true) (fun _ => 0)
          [("1950s", "imgA"), ("1980s", "imgB")] =
        Except.ok (trace, ⟨2480, 3508, "image/jpeg", 92/100⟩) ∧
      trace.countP isDrawImage = 2 ∧
      trace.filterMap drawImageOf = ["imgA", "imgB"] ∧
      trace.filterMap translateOf =
        (List.range 2).map (fun i => cellCenter (i % gridCols) (i / gridCols)) :=
  createAlbumPage_grid (fun _ => true) (fun _ => 0)
    [("1950s", "imgA"), ("1980s", "imgB")] (by decide) (by decide)

/-- C4 (counterexample): the compositor paints before the image loads have
completed — on a one-entry input the prefix of the trace strictly before the
load barrier already contains two paint operations (the background fill and
the title text), so not all drawing waits for the loads. -/
theorem all_painting_after_loads_cex :
    ((preBarrier (pageTrace (createAlbumPage true (fun _ => true) (fun _ => 0)
        [("1950s", "imgA")]))).countP isPaint = 2) ∧
      CanvasEvent.allImagesLoaded ∈
        pageTrace (createAlbumPage true (fun _ => true) (fun _ => 0)
          [("1950s", "imgA")]) := by
  constructor
  · decide
  · decide

/-- C4 (amended): the synchronization barrier over the image loads precedes
every image-cell draw — no `drawImage` happens before all loads complete —
but the background fill and the title text are painted before the loads. -/
theorem no_cell_drawn_before_loads (ctxAvailable : Bool) (loadOk : String → Bool)
    (rand : ℕ → ℚ) (imageData : List (String × String)) :
    (preBarrier (pageTrace (createAlbumPage ctxAvailable loadOk rand
      imageData))).countP isDrawImage = 0 := by
  rw [createAlbumPage]
  cases ctxAvailable
  · rfl
  · cases hl : loadAll loadOk (imageData.map Prod.snd) with
    | error e => simp [pageTrace, preBarrier]
    | ok imgs =>
        simp only [if_true, hl]
        rw [pageTrace, preBarrier_page]
        decide

/-- C7: when any source fails to decode, the whole `createAlbumPage` call
rejects — no page is produced — and the error is the interpreted load
failure naming the offending source by its first 50 characters. -/
theorem createAlbumPage_load_failure (loadOk : String → Bool) (rand : ℕ → ℚ)
    (imageData : List (String × String))
    (hfail : ∃ p ∈ imageData, loadOk p.2 = false) :
    ∃ u ∈ imageData.map Prod.snd, loadOk u = false ∧
      createAlbumPage true loadOk rand imageData =
        Except.error ("Failed to load image: " ++ u.take 50 ++ "...") := by
  have hsrc : ∃ src ∈ imageData.map Prod.snd, loadOk src = false := by
    obtain ⟨p, hp, hp2⟩ := hfail
    exact ⟨p.2, List.mem_map_of_mem Prod.snd hp, hp2⟩
  obtain ⟨u, hu, hu2, hu3⟩ := loadAll_error loadOk (imageData.map Prod.snd) hsrc
  exact ⟨u, hu, hu2, by simp [createAlbumPage, hu3]⟩

theorem createAlbumPage_load_failure_witness :
    ∃ u ∈ [("1950s", demoLongSrc)].map Prod.snd,
      (fun _ : String => false) u = false ∧
      createAlbumPage true (fun _ => false) (fun _ => 0) [("1950s", demoLongSrc)] =
        Except.error ("Failed to load image: " ++ u.take 50 ++ "...") :=
  createAlbumPage_load_failure (fun _ => false) (fun _ => 0) [("1950s", demoLongSrc)]
    ⟨("1950s", demoLongSrc), List.mem_cons_self _ _, rfl⟩

/-- C8: on the empty mapping `createAlbumPage` does not reject: it resolves
with the background-only page — the preamble trace with zero image cells —
and the fixed encoded JPEG descriptor. -/
theorem createAlbumPage_empty (loadOk : String → Bool) (rand : ℕ → ℚ) :
    createAlbumPage true loadOk rand [] =
      Except.ok (pagePreamble ++ [CanvasEvent.allImagesLoaded],
        ⟨canvasWidth, canvasHeight, "image/jpeg", 92/100⟩) ∧
    (pagePreamble ++ [CanvasEvent.allImagesLoaded]).countP isDrawImage = 0 :=
  ⟨rfl, by decide⟩

/-- C9: when every sample of the random source lies in [0, 1), every rotation
the compositor applies to a cell is at most 0.035 radians in absolute
value. -/
theorem cell_rotation_bounded (ctxAvailable : Bool) (loadOk : String → Bool)
    (rand : ℕ → ℚ) (imageData : List (String × String))
    (hrand : ∀ k, 0 ≤ rand k ∧ rand k < 1) :
    (pageTrace (createAlbumPage ctxAvailable loadOk rand imageData)).all
      rotationSmall = true := by
  rw [createAlbumPage]
  cases ctxAvailable
  · rfl
  · cases hl : loadAll loadOk (imageData.map Prod.snd) with
    | error e => simp [pageTrace]
    | ok imgs =>
        simp only [if_true, hl]
        rw [pageTrace, List.all_append, List.all_cons]
        rw [all_rotationSmall_cellTraces rand 0 _ hrand]
        decide

theorem cell_rotation_bounded_witness :
    (pageTrace (createAlbumPage true (fun _ => true) (fun _ => 0)
      [("1950s", "imgA"), ("1980s", "imgB")])).all rotationSmall = true :=
  cell_rotation_bounded true (fun _ => true) (fun _ => 0)
    [("1950s", "imgA"), ("1980s", "imgB")]
    (fun _ => ⟨le_refl 0, by norm_num⟩)

end PastForward
